import Mathlib

/-!
Shallow embedding of the `finance-llm` ingestion pipeline
(`src/finance_llm/lib/{fingerprint,state,rules,journal_writer,csv_normalizer}.py`
and `src/finance_llm/bin/post.py`) together with proofs settling the
specification claims about it.

Modelling conventions:
* Python strings are Lean `String`s (sequences of unicode scalar values);
  character-class tests (`str.strip`, regex `\s`) are modelled over the ASCII
  whitespace characters, which covers every input appearing in the repository
  and in the claims.
* Python `float` values are modelled as exact rationals (`Rat`).
* SQLite tables are modelled as insertion-ordered association lists.
* Fallible Python code (raising/catching `ValueError`, `json.loads` errors)
  is modelled with `Option`.
-/

namespace FinLLM

/-- ASCII whitespace, modelling Python's `str.strip` character class and the
regex class `\s`. -/
def isPySpace (c : Char) : Bool :=
  c = ' ' || c = '\t' || c = '\n' || c = '\r' || c = '\x0b' || c = '\x0c'

/-- Python `s.strip()`: drop leading and trailing whitespace. -/
def pyStripL (l : List Char) : List Char :=
  ((l.dropWhile isPySpace).reverse.dropWhile isPySpace).reverse

/-- Python `s.strip()` on `String`. -/
def pyStrip (s : String) : String := ⟨pyStripL s.data⟩

/-- Python `s.lower()` (ASCII model; `Char.toLower` lowercases exactly
the ASCII uppercase letters). -/
def pyLower (s : String) : String := ⟨s.data.map Char.toLower⟩

/-- One pass of `re.sub(r"\s+", " ", s)`: every maximal nonempty run of
whitespace is replaced by a single space.  The boolean argument records
whether we are currently inside a whitespace run. -/
def collapseWsAux : Bool → List Char → List Char
  | _, [] => []
  | inRun, c :: rest =>
    if isPySpace c then
      if inRun then collapseWsAux true rest
      else ' ' :: collapseWsAux true rest
    else c :: collapseWsAux false rest

/-- `re.sub(r"\s+", " ", s)`. -/
def collapseWs (l : List Char) : List Char := collapseWsAux false l

/-- The character class `[a-z0-9\s]` (complement of the class removed by
`re.sub(r"[^a-z0-9\s]", "", s)`). -/
def isKeptChar (c : Char) : Bool :=
  ('a' ≤ c && c ≤ 'z') || ('0' ≤ c && c ≤ '9') || isPySpace c

/-- `fingerprint.normalize_payee` from `lib/fingerprint.py`:

    s = raw_payee.strip().lower()
    s = re.sub(r"[^a-z0-9\s]", "", s)
    s = re.sub(r"\s+", " ", s)
    return s
-/
def normalize_payee (raw_payee : String) : String :=
  ⟨collapseWs (((pyStripL raw_payee.data).map Char.toLower).filter isKeptChar)⟩

/-! ### SHA-256 (`hashlib.sha256(...).hexdigest()`)

A direct executable implementation of FIPS 180-4 SHA-256 over the UTF-8
bytes of the input string, with 32-bit words represented as `Nat` reduced
modulo `2 ^ 32`. -/

/-- Truncate to a 32-bit word. -/
def w32 (n : Nat) : Nat := n % 4294967296

/-- 32-bit right rotation. -/
def rotr (k x : Nat) : Nat := w32 ((x >>> k) ||| (x <<< (32 - k)))

/-- 32-bit bitwise complement. -/
def wnot (x : Nat) : Nat := 4294967295 - x % 4294967296

def bigSigma0 (x : Nat) : Nat := (rotr 2 x) ^^^ (rotr 13 x) ^^^ (rotr 22 x)

def bigSigma1 (x : Nat) : Nat := (rotr 6 x) ^^^ (rotr 11 x) ^^^ (rotr 25 x)

def smallSigma0 (x : Nat) : Nat := (rotr 7 x) ^^^ (rotr 18 x) ^^^ (w32 (x >>> 3))

def smallSigma1 (x : Nat) : Nat := (rotr 17 x) ^^^ (rotr 19 x) ^^^ (w32 (x >>> 10))

def shaCh (x y z : Nat) : Nat := (x &&& y) ^^^ ((wnot x) &&& z)

def shaMaj (x y z : Nat) : Nat := (x &&& y) ^^^ (x &&& z) ^^^ (y &&& z)

/-- The SHA-256 round constants (decimal). -/
def shaK : List Nat :=
  [1116352408, 1899447441, 3049323471, 3921009573, 961987163,
   1508970993, 2453635748, 2870763221, 3624381080, 310598401,
   607225278, 1426881987, 1925078388, 2162078206, 2614888103,
   3248222580, 3835390401, 4022224774, 264347078, 604807628,
   770255983, 1249150122, 1555081692, 1996064986, 2554220882,
   2821834349, 2952996808, 3210313671, 3336571891, 3584528711,
   113926993, 338241895, 666307205, 773529912, 1294757372,
   1396182291, 1695183700, 1986661051, 2177026350, 2456956037,
   2730485921, 2820302411, 3259730800, 3345764771, 3516065817,
   3600352804, 4094571909, 275423344, 430227734, 506948616,
   659060556, 883997877, 958139571, 1322822218, 1537002063,
   1747873779, 1955562222, 2024104815, 2227730452, 2361852424,
   2428436474, 2756734187, 3204031479, 3329325298]

/-- The SHA-256 initial hash value (decimal). -/
def shaH0 : List Nat :=
  [1779033703, 3144134277, 1013904242, 2773480762,
   1359893119, 2600822924, 528734635, 1541459225]

/-- Big-endian bytes of `n`, `k` bytes wide. -/
def beBytes : Nat → Nat → List Nat
  | 0, _ => []
  | k + 1, n => beBytes k (n / 256) ++ [n % 256]

/-- SHA-256 message padding: append `0x80`, zero bytes, and the 64-bit
big-endian bit length, reaching a multiple of 64 bytes. -/
def shaPad (msg : List Nat) : List Nat :=
  let padLen := (64 - ((msg.length + 9) % 64)) % 64
  msg ++ [0x80] ++ List.replicate padLen 0 ++ beBytes 8 (8 * msg.length)

/-- Split a byte list into 32-bit big-endian words. -/
def bytesToWords : List Nat → List Nat
  | a :: b :: c :: d :: rest => (((a * 256 + b) * 256 + c) * 256 + d) :: bytesToWords rest
  | _ => []

/-- Split a list into chunks of 16 elements. -/
def chunk16 (l : List Nat) : List (List Nat) :=
  if _h : l.length < 16 then []
  else l.take 16 :: chunk16 (l.drop 16)
termination_by l.length
decreasing_by
  simp only [List.length_drop]
  omega

/-- Extend a 16-word block to the 64-word message schedule. -/
def shaExtend : Nat → Array Nat → Array Nat
  | 0, w => w
  | k + 1, w =>
    let t := w.size
    let wt := w32 (smallSigma1 (w.getD (t - 2) 0) + w.getD (t - 7) 0 +
      smallSigma0 (w.getD (t - 15) 0) + w.getD (t - 16) 0)
    shaExtend k (w.push wt)

/-- One round of the SHA-256 compression function. -/
def shaRound (st : List Nat) (kw : Nat × Nat) : List Nat :=
  match st with
  | [a, b, c, d, e, f, g, h] =>
    let t1 := w32 (h + bigSigma1 e + shaCh e f g + kw.1 + kw.2)
    let t2 := w32 (bigSigma0 a + shaMaj a b c)
    [w32 (t1 + t2), a, b, c, w32 (d + t1), e, f, g]
  | other => other

/-- Process one 16-word block. -/
def shaBlock (h : List Nat) (block : List Nat) : List Nat :=
  let w := shaExtend 48 (Array.mk block)
  let st := (shaK.zip w.toList).foldl shaRound h
  (h.zip st).map (fun p => w32 (p.1 + p.2))

/-- `k`-digit lowercase hexadecimal rendering of `n`. -/
def hexChars : Nat → Nat → List Char
  | 0, _ => []
  | k + 1, n =>
    let d := n % 16
    hexChars k (n / 16) ++ [if d < 10 then Char.ofNat (48 + d) else Char.ofNat (87 + d)]

/-- SHA-256 of a byte sequence, as a 64-character lowercase hex string. -/
def sha256Bytes (msg : List Nat) : String :=
  let blocks := chunk16 (bytesToWords (shaPad msg))
  let hFinal := blocks.foldl shaBlock shaH0
  ⟨(hFinal.map (hexChars 8)).flatten⟩

/-- `hashlib.sha256(s.encode("utf-8")).hexdigest()`. -/
def sha256hex (s : String) : String :=
  sha256Bytes (s.toUTF8.toList.map UInt8.toNat)

/-- The pre-image string hashed by `fingerprint`:
`f"{account}|{date}|{amount}|{normalized}|{source_id}"`. -/
def fingerprintInput (account date amount payee source_id : String) : String :=
  account ++ "|" ++ date ++ "|" ++ amount ++ "|" ++ normalize_payee payee ++ "|" ++ source_id

/-- `fingerprint.fingerprint` from `lib/fingerprint.py`. -/
def fingerprint (account date amount payee source_id : String) : String :=
  sha256hex (fingerprintInput account date amount payee source_id)

/-! ### `lib/state.py` — `SeenTransactions`

The SQLite table `seen_transactions (fingerprint TEXT PRIMARY KEY, source TEXT,
posted_at TEXT NOT NULL)` is modelled as an insertion-ordered list of rows.
The `PRIMARY KEY` uniqueness together with `INSERT OR IGNORE` makes
`mark_seen` an insert-if-absent. -/

/-- One row of the `seen_transactions` table. -/
structure SeenRow where
  fp : String
  source : String
  posted_at : String
deriving DecidableEq, Repr

/-- The `seen_transactions` table state. -/
abbrev SeenDB := List SeenRow

/-- `SeenTransactions.is_seen`: `SELECT 1 FROM seen_transactions WHERE fingerprint = ?`. -/
def is_seen (db : SeenDB) (fp : String) : Bool :=
  db.any (fun r => r.fp == fp)

/-- The row stored for a fingerprint, if any (unique by the primary key). -/
def lookupRow (db : SeenDB) (fp : String) : Option SeenRow :=
  db.find? (fun r => r.fp == fp)

/-- `SeenTransactions.mark_seen`: `INSERT OR IGNORE` with `fingerprint` as
primary key behaves as insert-if-absent.  `now` stands for the
`datetime.now(timezone.utc).isoformat()` timestamp taken at the call. -/
def mark_seen (db : SeenDB) (fp source now : String) : SeenDB :=
  if is_seen db fp then db else db ++ [⟨fp, source, now⟩]

/-- `SeenTransactions.count`: `SELECT COUNT(*) FROM seen_transactions`. -/
def seenCount (db : SeenDB) : Nat := db.length

/-- `SeenTransactions.mark_batch`: loops over the pairs, skipping already-seen
fingerprints and counting the newly inserted ones. -/
def mark_batch (db : SeenDB) (fps : List (String × String)) (now : String) :
    SeenDB × Nat :=
  match fps with
  | [] => (db, 0)
  | (fp, source) :: rest =>
    if is_seen db fp then mark_batch db rest now
    else
      let db' := mark_seen db fp source now
      let (db'', n) := mark_batch db' rest now
      (db'', n + 1)

/-- The mutating operations `SeenTransactions` exposes (`is_seen` and `count`
are read-only `SELECT`s). -/
inductive SeenOp where
  | markSeen (fp source now : String)
  | markBatch (fps : List (String × String)) (now : String)
deriving DecidableEq, Repr

/-- Effect of a mutating store operation on the table state. -/
def seenStep (op : SeenOp) (db : SeenDB) : SeenDB :=
  match op with
  | .markSeen fp source now => mark_seen db fp source now
  | .markBatch fps now => (mark_batch db fps now).1

/-! ### `lib/rules.py` — `RuleEngine`

`PayeeRule.matches` compiles `re.compile(pattern, re.IGNORECASE)` and calls
`.search(raw_payee)`.  For the metacharacter-free patterns the rule files use,
this is case-insensitive substring search, which is how it is modelled here
(the lazily-memoized compiled pattern is an optimization with no observable
effect and is not modelled). -/

structure PayeeRule where
  pattern : String
  name : String
deriving DecidableEq, Repr

structure AccountRule where
  payee : String
  account : String
deriving DecidableEq, Repr

/-- Is `pat` a leading segment of `l`? -/
def prefOf : List Char → List Char → Bool
  | [], _ => true
  | _ :: _, [] => false
  | p :: ps, c :: cs => p == c && prefOf ps cs

/-- Does `pat` occur contiguously inside `hay`? -/
def hasSub (pat : List Char) : List Char → Bool
  | [] => pat.isEmpty
  | c :: rest => prefOf pat (c :: rest) || hasSub pat rest

/-- `PayeeRule.matches`: `re.search(pattern, raw_payee, re.IGNORECASE)`,
modelled as case-insensitive substring search. -/
def ruleMatches (r : PayeeRule) (raw_payee : String) : Bool :=
  hasSub (pyLower r.pattern).data (pyLower raw_payee).data

/-- `RuleEngine.normalize_payee`: first matching payee rule wins; no match
returns the raw payee unchanged. -/
def engineNormalizePayee (rules : List PayeeRule) (raw_payee : String) : String :=
  match rules with
  | [] => raw_payee
  | r :: rest =>
    if ruleMatches r raw_payee then r.name else engineNormalizePayee rest raw_payee

/-- `RuleEngine.categorize`: first account rule whose `payee` equals the clean
payee case-insensitively; `None` if uncategorized. -/
def categorize (rules : List AccountRule) (clean_payee : String) : Option String :=
  match rules with
  | [] => none
  | r :: rest =>
    if pyLower r.payee == pyLower clean_payee then some r.account
    else categorize rest clean_payee

/-- `RuleEngine.apply`. -/
def applyRules (payee_rules : List PayeeRule) (account_rules : List AccountRule)
    (raw_payee : String) : String × String :=
  let clean := engineNormalizePayee payee_rules raw_payee
  (clean, (categorize account_rules clean).getD "Expenses:Uncategorized")

/-! ### `lib/csv_normalizer.py` — `CanonicalTransaction` and its JSON form

`to_json` is `json.dumps(asdict(self), ensure_ascii=False)`: the seven fields
in declaration order, default separators `", "` and `": "`, with `"`,
backslash and the control characters below `0x20` escaped and every other
character emitted verbatim.  `from_json` is `cls(**json.loads(line))`,
modelled as a JSON parser returning `Option` (a parse error or a key set
different from the seven field names raises in Python).  All seven fields are
`str`-typed, so only string JSON values are modelled. -/

structure CanonicalTransaction where
  date : String
  amount : String
  payee : String
  memo : String
  account : String
  source_id : String
  institution : String
deriving DecidableEq, Repr

/-- Lowercase hex digit (value < 16). -/
def hexDigitChar (n : Nat) : Char :=
  if n < 10 then Char.ofNat (48 + n) else Char.ofNat (87 + n)

/-- `json.dumps` escaping of one character (`ensure_ascii=False`). -/
def escChar (c : Char) : List Char :=
  if c = '"' then ['\\', '"']
  else if c = '\\' then ['\\', '\\']
  else if c = '\n' then ['\\', 'n']
  else if c = '\r' then ['\\', 'r']
  else if c = '\t' then ['\\', 't']
  else if c = '\x08' then ['\\', 'b']
  else if c = '\x0c' then ['\\', 'f']
  else if c.toNat < 32 then
    ['\\', 'u', '0', '0', hexDigitChar (c.toNat / 16), hexDigitChar (c.toNat % 16)]
  else [c]

/-- `json.dumps` escaping of a character sequence. -/
def escStr : List Char → List Char
  | [] => []
  | c :: rest => escChar c ++ escStr rest

/-- A JSON string literal: `"` + escaped body + `"`. -/
def jstr (s : String) : List Char :=
  '"' :: (escStr s.data ++ ['"'])

/-- One `"key": "value"` member as emitted by `json.dumps`. -/
def jsonMember (k v : String) : List Char :=
  jstr k ++ ':' :: ' ' :: jstr v

/-- The brace-delimited member list of `json.dumps(asdict(self))`: the seven
fields in dataclass declaration order, separated by `", "`. -/
def toJsonBody (t : CanonicalTransaction) : List Char :=
  jsonMember "date" t.date ++ ',' :: ' ' ::
    (jsonMember "amount" t.amount ++ ',' :: ' ' ::
    (jsonMember "payee" t.payee ++ ',' :: ' ' ::
    (jsonMember "memo" t.memo ++ ',' :: ' ' ::
    (jsonMember "account" t.account ++ ',' :: ' ' ::
    (jsonMember "source_id" t.source_id ++ ',' :: ' ' ::
    (jsonMember "institution" t.institution ++ ['\x7d']))))))

/-- `CanonicalTransaction.to_json`. -/
def to_json (t : CanonicalTransaction) : String :=
  ⟨'\x7b' :: toJsonBody t⟩

/-- JSON insignificant whitespace. -/
def isJsonWs (c : Char) : Bool :=
  c = ' ' || c = '\t' || c = '\n' || c = '\r'

def skipWs (l : List Char) : List Char := l.dropWhile isJsonWs

/-- Value of a hex digit character. -/
def hexVal (c : Char) : Option Nat :=
  if '0' ≤ c && c ≤ '9' then some (c.toNat - 48)
  else if 'a' ≤ c && c ≤ 'f' then some (c.toNat - 87)
  else if 'A' ≤ c && c ≤ 'F' then some (c.toNat - 55)
  else none

/-- The single-character JSON escapes. -/
def escMap (e : Char) : Option Char :=
  if e = '"' then some '"'
  else if e = '\\' then some '\\'
  else if e = '/' then some '/'
  else if e = 'b' then some '\x08'
  else if e = 'f' then some '\x0c'
  else if e = 'n' then some '\n'
  else if e = 'r' then some '\r'
  else if e = 't' then some '\t'
  else none

/-- Combine four hex digit characters into a code unit value. -/
def hex4 (a b c d : Char) : Option Nat :=
  match hexVal a, hexVal b, hexVal c, hexVal d with
  | some x, some y, some z, some w => some (((x * 16 + y) * 16 + z) * 16 + w)
  | _, _, _, _ => none

/-- After a high surrogate `\uXXXX`, decode the mandatory low-surrogate
escape `\uYYYY` and combine the pair into one code point. -/
def decodeLowSurrogate (n : Nat) : List Char → Option (Char × List Char)
  | b :: u :: g1 :: g2 :: g3 :: g4 :: r2 =>
    if b = '\\' ∧ u = 'u' then
      match hex4 g1 g2 g3 g4 with
      | some m =>
        if 56320 ≤ m ∧ m < 57344 then
          some (Char.ofNat (65536 + (n - 55296) * 1024 + (m - 56320)), r2)
        else none
      | none => none
    else none
  | _ => none

/-- Decode one escape sequence (the input starts right after a backslash):
either a `\uXXXX` escape (with surrogate-pair handling) or a single-character
escape.  Lone surrogate escapes are rejected (a model restriction: Lean
`Char` cannot hold surrogates, and `to_json` never emits `\u` above
`\u001f`). -/
def escLookahead : List Char → Option (Char × List Char)
  | [] => none
  | e :: r =>
    if e = 'u' then
      match r with
      | h1 :: h2 :: h3 :: h4 :: r1 =>
        match hex4 h1 h2 h3 h4 with
        | some n =>
          if 55296 ≤ n ∧ n < 56320 then decodeLowSurrogate n r1
          else if 56320 ≤ n ∧ n < 57344 then none
          else some (Char.ofNat n, r1)
        | none => none
      | _ => none
    else (escMap e).map (fun ch => (ch, r))

/-- Decode a JSON string body (after the opening quote) up to the closing
quote; returns the decoded characters and the remaining input.  Unescaped
control characters are rejected (`json.loads` is strict by default).  `fuel`
bounds the number of decoded characters; every caller passes at least the
input length plus one, which always suffices since each decoded character
consumes at least one input character. -/
def decodeStrBodyF : Nat → List Char → Option (List Char × List Char)
  | 0, _ => none
  | _ + 1, [] => none
  | fuel + 1, c :: rest =>
    if c = '"' then some ([], rest)
    else if c = '\\' then
      match escLookahead rest with
      | some (ch, r2) =>
        match decodeStrBodyF fuel r2 with
        | some (cs, rem) => some (ch :: cs, rem)
        | none => none
      | none => none
    else if c.toNat < 32 then none
    else
      match decodeStrBodyF fuel rest with
      | some (cs, rem) => some (c :: cs, rem)
      | none => none

/-- Parse a JSON string token (with surrounding whitespace skipped before it). -/
def parseJsonStrF (sfuel : Nat) (l : List Char) : Option (String × List Char) :=
  match skipWs l with
  | '"' :: r =>
    match decodeStrBodyF sfuel r with
    | some (cs, rem) => some (⟨cs⟩, rem)
    | none => none
  | _ => none

/-- Parse the members of a JSON object after the opening brace (assuming at
least one member, as `to_json` always emits), accumulating `(key, value)`
pairs in textual order.  `sfuel` is the string-decoder fuel; the `Nat`
argument bounds the number of members. -/
def parseMembers (sfuel : Nat) : Nat → List Char → List (String × String) →
    Option (List (String × String) × List Char)
  | 0, _, _ => none
  | fuel + 1, l, acc =>
    match parseJsonStrF sfuel l with
    | none => none
    | some (k, r1) =>
      match skipWs r1 with
      | ':' :: r2 =>
        match parseJsonStrF sfuel r2 with
        | none => none
        | some (v, r3) =>
          match skipWs r3 with
          | ',' :: r4 => parseMembers sfuel fuel r4 (acc ++ [(k, v)])
          | '\x7d' :: r4 => some (acc ++ [(k, v)], r4)
          | _ => none
      | _ => none

/-- The seven field names of `CanonicalTransaction`. -/
def ctFields : List String :=
  ["date", "amount", "payee", "memo", "account", "source_id", "institution"]

/-- Python `dict` lookup semantics over the parsed members: the last
occurrence of a duplicated key wins. -/
def memberGet (mems : List (String × String)) (k : String) : Option String :=
  (mems.reverse.find? (fun p => p.1 == k)).map (fun p => p.2)

/-- `cls(**d)`: requires the key set to be exactly the seven field names. -/
def mkCanonical (mems : List (String × String)) : Option CanonicalTransaction :=
  if mems.all (fun p => ctFields.contains p.1) then
    match memberGet mems "date", memberGet mems "amount", memberGet mems "payee",
      memberGet mems "memo", memberGet mems "account", memberGet mems "source_id",
      memberGet mems "institution" with
    | some date, some amount, some payee, some memo, some account,
      some source_id, some institution =>
      some ⟨date, amount, payee, memo, account, source_id, institution⟩
    | _, _, _, _, _, _, _ => none
  else none

/-- `CanonicalTransaction.from_json`. -/
def from_json (line : String) : Option CanonicalTransaction :=
  match skipWs line.data with
  | '\x7b' :: r =>
    match parseMembers (line.data.length + 1) (line.data.length + 1) r [] with
    | some (mems, rest) =>
      if (skipWs rest).isEmpty then mkCanonical mems else none
    | none => none
  | _ => none

/-! ### `datetime.strptime` / `strftime`

`datetime.strptime(s, fmt)` is modelled for the directives `%Y`, `%m`, `%d`
and literal format characters (the profiles in the repository use
`%m/%d/%Y`-style formats).  Following CPython's `_strptime` regexes:
`%Y` is exactly four digits, `%m` is `1[0-2]|0[1-9]|[1-9]` and `%d` is
`3[01]|[12]\d|0[1-9]|[1-9]` (ordered alternation).  The whole input must be
consumed (`unconverted data remains` otherwise), the `datetime` constructor
validates the day against the month length, and unsupported directives raise
`ValueError` (modelled as parse failure, since the caller catches
`ValueError`). -/

structure PyDate where
  year : Nat
  month : Nat
  day : Nat
deriving DecidableEq, Repr

/-- Partially-filled fields while scanning a format string. -/
structure StrpFound where
  year : Option Nat := none
  month : Option Nat := none
  day : Option Nat := none
deriving Repr

def digitVal (c : Char) : Nat := c.toNat - 48

/-- `%Y`: exactly four digits. -/
def parseYear4 : List Char → Option (Nat × List Char)
  | a :: b :: c :: d :: rest =>
    if a.isDigit && b.isDigit && c.isDigit && d.isDigit then
      some (((digitVal a * 10 + digitVal b) * 10 + digitVal c) * 10 + digitVal d, rest)
    else none
  | _ => none

/-- `%m`: `1[0-2]|0[1-9]|[1-9]` (ordered alternation, greedy). -/
def parseMonthTok : List Char → Option (Nat × List Char)
  | '1' :: c :: rest =>
    if '0' ≤ c && c ≤ '2' then some (10 + digitVal c, rest)
    else some (1, c :: rest)
  | '0' :: c :: rest =>
    if '1' ≤ c && c ≤ '9' then some (digitVal c, rest) else none
  | c :: rest =>
    if '1' ≤ c && c ≤ '9' then some (digitVal c, rest) else none
  | [] => none

/-- `%d`: `3[01]|[12]\d|0[1-9]|[1-9]` (ordered alternation, greedy). -/
def parseDayTok : List Char → Option (Nat × List Char)
  | '3' :: c :: rest =>
    if c = '0' || c = '1' then some (30 + digitVal c, rest)
    else some (3, c :: rest)
  | '1' :: c :: rest =>
    if c.isDigit then some (10 + digitVal c, rest) else some (1, c :: rest)
  | '2' :: c :: rest =>
    if c.isDigit then some (20 + digitVal c, rest) else some (2, c :: rest)
  | '0' :: c :: rest =>
    if '1' ≤ c && c ≤ '9' then some (digitVal c, rest) else none
  | c :: rest =>
    if '1' ≤ c && c ≤ '9' then some (digitVal c, rest) else none
  | [] => none

/-- Run a format string against the input, recording found fields. -/
def runFmt : List Char → List Char → StrpFound → Option StrpFound
  | [], [], f => some f
  | [], _ :: _, _ => none
  | '%' :: 'Y' :: fr, input, f =>
    match parseYear4 input with
    | some (v, rest) => runFmt fr rest { f with year := some v }
    | none => none
  | '%' :: 'm' :: fr, input, f =>
    match parseMonthTok input with
    | some (v, rest) => runFmt fr rest { f with month := some v }
    | none => none
  | '%' :: 'd' :: fr, input, f =>
    match parseDayTok input with
    | some (v, rest) => runFmt fr rest { f with day := some v }
    | none => none
  | '%' :: '%' :: fr, input, f =>
    match input with
    | '%' :: rest => runFmt fr rest f
    | _ => none
  | '%' :: _ :: _, _, _ => none
  | ['%'], _, _ => none
  | ch :: fr, input, f =>
    match input with
    | c :: rest => if c = ch then runFmt fr rest f else none
    | [] => none

/-- Whether a year is a leap year (Gregorian). -/
def isLeap (y : Nat) : Bool :=
  (y % 4 = 0 && y % 100 ≠ 0) || y % 400 = 0

def daysInMonth (y m : Nat) : Nat :=
  if m = 2 then (if isLeap y then 29 else 28)
  else if m = 4 || m = 6 || m = 9 || m = 11 then 30
  else 31

/-- `datetime.strptime(s, fmt)`, reduced to the date it denotes.  Missing
fields default as in CPython (`year=1900, month=1, day=1`); the `datetime`
constructor's range validation rejects `year = 0` and out-of-range days. -/
def pyStrptime (fmt s : String) : Option PyDate :=
  match runFmt fmt.data s.data {} with
  | none => none
  | some f =>
    let y := f.year.getD 1900
    let m := f.month.getD 1
    let d := f.day.getD 1
    if y = 0 then none
    else if d > daysInMonth y m then none
    else some ⟨y, m, d⟩

/-- Decimal rendering of `n`, zero-padded to two digits (`%m`/`%d` in
`strftime`). -/
def pad2 (n : Nat) : String :=
  if n < 10 then "0" ++ toString n else toString n

/-- Decimal rendering of `n`, zero-padded to four digits (`%Y` in
`strftime`). -/
def pad4 (n : Nat) : String :=
  if n < 10 then "000" ++ toString n
  else if n < 100 then "00" ++ toString n
  else if n < 1000 then "0" ++ toString n
  else toString n

/-- `dt.strftime("%Y-%m-%d")`. -/
def fmtYMD (d : PyDate) : String :=
  pad4 d.year ++ "-" ++ pad2 d.month ++ "-" ++ pad2 d.day

/-- `dt.strftime("%Y-%m")`. -/
def fmtYM (d : PyDate) : String :=
  pad4 d.year ++ "-" ++ pad2 d.month

/-! ### Python `float(...)` and `f"{x:.2f}"`

`float` values are modelled as exact rationals.  The accepted syntax is
`[+-]? (digits [. digits*] | . digits) ([eE] [+-]? digits)?`, the decimal
core of Python's float literals (`inf`/`nan` spellings and `_` separators are
not modelled; no profile input uses them). -/

def digitsToNat (ds : List Char) : Nat :=
  ds.foldl (fun a c => a * 10 + digitVal c) 0

/-- Parse the unsigned mantissa; returns its value and the remaining input. -/
def parseMantissa (l : List Char) : Option (Rat × List Char) :=
  let ip := l.takeWhile Char.isDigit
  let l1 := l.dropWhile Char.isDigit
  match l1 with
  | '.' :: r =>
    let fp := r.takeWhile Char.isDigit
    let r1 := r.dropWhile Char.isDigit
    if ip.isEmpty && fp.isEmpty then none
    else some ((digitsToNat ip : Rat) + (digitsToNat fp : Rat) / ((10 : Rat) ^ fp.length), r1)
  | _ =>
    if ip.isEmpty then none else some ((digitsToNat ip : Rat), l1)

/-- Parse an optional exponent part; the whole remainder must be consumed. -/
def parseExpTail (x : Rat) : List Char → Option Rat
  | [] => some x
  | e :: r =>
    if e = 'e' || e = 'E' then
      let (esgn, r1) :=
        match r with
        | '+' :: r2 => ((1 : Int), r2)
        | '-' :: r2 => ((-1 : Int), r2)
        | _ => ((1 : Int), r)
      let ds := r1.takeWhile Char.isDigit
      let r2 := r1.dropWhile Char.isDigit
      if ds.isEmpty || !r2.isEmpty then none
      else
        let k := digitsToNat ds
        if esgn < 0 then some (x / (10 : Rat) ^ k) else some (x * (10 : Rat) ^ k)
    else none

/-- `float(s)` (decimal core). -/
def pyFloat (s : String) : Option Rat :=
  let (sgn, l) :=
    match s.data with
    | '+' :: r => ((1 : Rat), r)
    | '-' :: r => ((-1 : Rat), r)
    | l => ((1 : Rat), l)
  match parseMantissa l with
  | none => none
  | some (m, rest) =>
    match parseExpTail m rest with
    | none => none
    | some x => some (sgn * x)

/-- Round-half-even of a nonnegative rational to an integer (the rounding
`%.2f` applies, idealized to exact decimal arithmetic). -/
def roundHalfEvenNonneg (q : Rat) : Nat :=
  let fl := q.floor.toNat
  let fr := q - (fl : Rat)
  if fr < 1/2 then fl
  else if fr > 1/2 then fl + 1
  else if fl % 2 = 0 then fl else fl + 1

/-- `f"{x:.2f}"` for the rational model of a float: Python prints a leading
minus sign whenever the float is negative (including `-0.004 → "-0.00"`). -/
def fmt2f (q : Rat) : String :=
  let neg := q < 0
  let c := roundHalfEvenNonneg (|q| * 100)
  (if neg then "-" else "") ++ toString (c / 100) ++ "." ++ pad2 (c % 100)

/-! ### `normalize_csv`

The per-row loop of `csv_normalizer.normalize_csv` (lines 90–122).  A parsed
CSV row (as produced by `csv.DictReader`) is an association list from column
header to cell text; `row.get(k, default)` is `pyGet`. -/

/-- A `csv.DictReader` row. -/
abbrev Row := List (String × String)

/-- Python `dict.get(k, default)`. -/
def pyGet (d : List (String × String)) (k dflt : String) : String :=
  match d.find? (fun p => p.1 == k) with
  | some p => p.2
  | none => dflt

/-- `CSVProfile` (the fields the row loop reads). -/
structure CSVProfile where
  institution : String
  columns : List (String × String)
  date_format : String
  amount_invert : Bool
  default_account : String
deriving Repr

/-- `s.replace(",", "")`. -/
def stripCommas (s : String) : String :=
  ⟨s.data.filter (fun c => c ≠ ',')⟩

/-- The body of the `for row in reader` loop: `none` models `continue`. -/
def canonRow (p : CSVProfile) (row : Row) : Option CanonicalTransaction :=
  let date_str := pyStrip (pyGet row (pyGet p.columns "date" "") "")
  if date_str = "" then none
  else
    match pyStrptime p.date_format date_str with
    | none => none
    | some parsed_date =>
      let raw_amount := pyStrip (pyGet row (pyGet p.columns "amount" "") "0")
      match pyFloat (stripCommas raw_amount) with
      | none => none
      | some a =>
        let amount := if p.amount_invert then -a else a
        let description := pyStrip (pyGet row (pyGet p.columns "description" "") "")
        let memo := pyStrip (pyGet row (pyGet p.columns "memo" "") "")
        let reference := pyStrip (pyGet row (pyGet p.columns "reference" "") "")
        some
          { date := fmtYMD parsed_date
            amount := fmt2f amount
            payee := description
            memo := memo
            account := p.default_account
            source_id := reference
            institution := p.institution }

/-- The row loop of `normalize_csv`: transactions of the well-formed rows, in
input order; malformed rows are skipped, nothing is raised (the function is
total). -/
def normalize_csv_rows (p : CSVProfile) : List Row → List CanonicalTransaction
  | [] => []
  | row :: rest =>
    match canonRow p row with
    | none => normalize_csv_rows p rest
    | some txn => txn :: normalize_csv_rows p rest

/-! ### `lib/journal_writer.py`

`write_staging_journals` with an explicit event trace: the loop marks each
newly-written fingerprint seen (`WEv.mark`) while buffering its rendered
entry in `grouped`; only after the loop does it append the buffered entries
to the staging files (`WEv.append`, one event per entry written, carrying the
entry's fingerprint). -/

/-- `format_journal_entry`. -/
def format_journal_entry (date payee expense_account source_account amount fp :
    String) : String :=
  date ++ " " ++ payee ++ "  ; fingerprint:" ++ fp ++ "\n" ++
    "    " ++ expense_account ++ "    $" ++ amount ++ "\n" ++
    "    " ++ source_account ++ "\n"

/-- `stats[k] = v` on an insertion-ordered dict. -/
def setAssoc (st : List (String × Nat)) (k : String) (v : Nat) :
    List (String × Nat) :=
  match st with
  | [] => [(k, v)]
  | (k', v') :: rest => if k' == k then (k, v) :: rest else (k', v') :: setAssoc rest k v

/-- `stats.get(k, 0)`. -/
def getCount (st : List (String × Nat)) (k : String) : Nat :=
  match st.find? (fun p => p.1 == k) with
  | some p => p.2
  | none => 0

/-- `grouped[file_key].append(x)` on a `defaultdict(list)` (insertion-ordered). -/
def appendGroup (g : List (String × List (String × String))) (k : String)
    (x : String × String) : List (String × List (String × String)) :=
  match g with
  | [] => [(k, [x])]
  | (k', xs) :: rest =>
    if k' == k then (k', xs ++ [x]) :: rest else (k', xs) :: appendGroup rest k x

/-- The journal-writer events: marking a fingerprint seen in the dedup store,
and appending one rendered entry (tagged with its fingerprint) to a staging
file. -/
inductive WEv where
  | mark (fp : String)
  | append (fileKey : String) (fp : String)
deriving DecidableEq, Repr

/-- `datetime.strptime(txn.date, "%Y-%m-%d")` / `strftime("%Y-%m")`, with the
`except ValueError: month_key = "unknown"` fallback. -/
def monthKey (date : String) : String :=
  match pyStrptime "%Y-%m-%d" date with
  | some d => fmtYM d
  | none => "unknown"

/-- Fingerprint of a canonical transaction, as computed in the loop. -/
def txnFp (txn : CanonicalTransaction) : String :=
  fingerprint txn.account txn.date txn.amount txn.payee txn.source_id

/-- State threaded through the `for txn in transactions` loop. -/
structure WSLoopState where
  seen : SeenDB
  stats : List (String × Nat)
  grouped : List (String × List (String × String))
  trace : List WEv
deriving Repr

/-- The main loop of `write_staging_journals`. -/
def wsLoop (payee_rules : List PayeeRule) (account_rules : List AccountRule)
    (now : String) : List CanonicalTransaction → WSLoopState → WSLoopState
  | [], st => st
  | txn :: rest, st =>
    let fp := txnFp txn
    if is_seen st.seen fp then wsLoop payee_rules account_rules now rest st
    else
      let ca := applyRules payee_rules account_rules txn.payee
      let entry := format_journal_entry txn.date ca.1 ca.2 txn.account txn.amount fp
      let month_key := monthKey txn.date
      let file_key := txn.institution ++ "_" ++ month_key
      wsLoop payee_rules account_rules now rest
        { seen := mark_seen st.seen fp txn.institution now
          stats := setAssoc st.stats txn.institution (getCount st.stats txn.institution + 1)
          grouped := appendGroup st.grouped file_key (fp, entry)
          trace := st.trace ++ [WEv.mark fp] }

/-- The append events of the write-out phase: for each staging file in
`grouped` order, one append per buffered entry. -/
def appendEvents (g : List (String × List (String × String))) : List WEv :=
  (g.map (fun kv => kv.2.map (fun fe => WEv.append kv.1 fe.1))).flatten

/-- Result of `write_staging_journals`: the returned stats dict, the final
dedup-store state, the entries appended to each staging file, and the event
trace of the run. -/
structure WSResult where
  stats : List (String × Nat)
  seen : SeenDB
  files : List (String × List String)
  trace : List WEv
deriving Repr

/-- `write_staging_journals(transactions, rules, seen, staging_dir)`. -/
def write_staging_journals (transactions : List CanonicalTransaction)
    (payee_rules : List PayeeRule) (account_rules : List AccountRule)
    (seen : SeenDB) (now : String) : WSResult :=
  let st := wsLoop payee_rules account_rules now transactions
    { seen := seen, stats := [], grouped := [], trace := [] }
  { stats := st.stats
    seen := st.seen
    files := st.grouped.map (fun kv => (kv.1 ++ ".journal", kv.2.map (fun fe => fe.2)))
    trace := st.trace ++ appendEvents st.grouped }

/-! ### `bin/post.py` — promotion

The staging directory is a list of `(filename, lines)` pairs (in the sorted
order `sorted(staging_dir.glob("*.journal"))` produces); the postings area is
an association list from destination path to appended content lines. -/

/-- `re.match(r"^(\d{4})-(\d{2})-\d{2}\s", line)`, returning the `YYYY-MM`
month key. -/
def monthOfLine (line : String) : Option String :=
  match line.data with
  | a :: b :: c :: d :: '-' :: e :: f :: '-' :: g :: h :: w :: _ =>
    if a.isDigit && b.isDigit && c.isDigit && d.isDigit && e.isDigit &&
        f.isDigit && g.isDigit && h.isDigit && isPySpace w then
      some ⟨[a, b, c, d, '-', e, f]⟩
    else none
  | _ => none

/-- Code-point lexicographic order on strings (Python `str` comparison). -/
def chLt : List Char → List Char → Bool
  | [], [] => false
  | [], _ :: _ => true
  | _ :: _, [] => false
  | a :: as_, b :: bs =>
    if a.toNat < b.toNat then true
    else if b.toNat < a.toNat then false
    else chLt as_ bs

def strLtB (a b : String) : Bool := chLt a.data b.data

/-- Insert into a sorted list (used to model `sorted(...)`). -/
def insSorted (s : String) : List String → List String
  | [] => [s]
  | t :: rest => if strLtB s t then s :: t :: rest else t :: insSorted s rest

def sortStrings (l : List String) : List String :=
  l.foldr insSorted []

/-- Insert-if-absent (used to model a Python `set`). -/
def addToSet (l : List String) (s : String) : List String :=
  if l.contains s then l else l ++ [s]

/-- `extract_months_from_journal` followed by `sorted(months)`. -/
def extract_months (lines : List String) : List String :=
  sortStrings ((lines.filterMap monthOfLine).foldl addToSet [])

/-- `get_institution_from_filename`: text before the first `_` if present,
else the name with every occurrence of `.journal` removed. -/
def removeOccAux (pat : List Char) : Nat → List Char → List Char
  | 0, l => l
  | _ + 1, [] => []
  | fuel + 1, c :: rest =>
    if prefOf pat (c :: rest) then removeOccAux pat fuel ((c :: rest).drop pat.length)
    else c :: removeOccAux pat fuel rest

/-- `s.replace(pat, "")` for nonempty `pat`. -/
def removeOcc (s pat : String) : String :=
  ⟨removeOccAux pat.data s.data.length s.data⟩

def get_institution_from_filename (filename : String) : String :=
  if filename.data.contains '_' then ⟨filename.data.takeWhile (fun c => c ≠ '_')⟩
  else removeOcc filename ".journal"

/-- `month.split("-")[0]`. -/
def yearOf (month : String) : String :=
  ⟨month.data.takeWhile (fun c => c ≠ '-')⟩

/-- Append lines to the file at `path`, creating it if absent
(`open(dest_file, "a")`). -/
def appendPost (post : List (String × List String)) (path : String)
    (lines : List String) : List (String × List String) :=
  match post with
  | [] => [(path, lines)]
  | (p, ls) :: rest =>
    if p == path then (p, ls ++ lines) :: rest else (p, ls) :: appendPost rest path lines

/-- Content of the file at `path` in the postings area. -/
def postedAt (post : List (String × List String)) (path : String) :
    Option (List String) :=
  (post.find? (fun pr => pr.1 == path)).map (fun pr => pr.2)

/-- The destination path `postings/<year>/<month>/<institution>.journal`. -/
def destPath (filename month : String) : String :=
  "postings/" ++ yearOf month ++ "/" ++ month ++ "/" ++
    get_institution_from_filename filename ++ ".journal"

/-- The non-dry-run promotion loop of `bin/post.py` `main` (lines 76–94): for
each staged file and each month found in it, the staged file's **entire
content** is appended to that month's destination file. -/
def promote (staged : List (String × List String))
    (post0 : List (String × List String)) : List (String × List String) :=
  staged.foldl
    (fun post sf =>
      (extract_months sf.2).foldl
        (fun post' month => appendPost post' (destPath sf.1 month) sf.2) post)
    post0

/-! ### Specification predicates and concrete test inputs -/

/-- The ordering property claimed for `write_staging_journals`: whenever a
fingerprint is marked seen, an append of that fingerprint's entry has already
happened earlier in the trace. -/
def appendsBeforeMarks (tr : List WEv) : Prop :=
  ∀ i fp, tr.get? i = some (WEv.mark fp) →
    ∃ j k, j < i ∧ tr.get? j = some (WEv.append k fp)

/-- A fingerprint occurs among the buffered entries of `grouped`. -/
def groupedFp (g : List (String × List (String × String))) (fp : String) : Prop :=
  ∃ kv ∈ g, ∃ fe ∈ kv.2, fe.1 = fp

/-- A concrete canonical transaction used as a test input. -/
def txn0 : CanonicalTransaction :=
  ⟨"2026-01-05", "10.00", "Coffee", "", "Assets:Checking", "", "chase"⟩

/-- A staging file's lines spanning two calendar months (two rendered entries,
dated 2026-01-31 and 2026-02-01). -/
def janFebLines : List String :=
  ["2026-01-31 Store A  ; fingerprint:aa",
   "    Expenses:Uncategorized    $1.00",
   "    Assets:Checking",
   "",
   "2026-02-01 Store B  ; fingerprint:bb",
   "    Expenses:Uncategorized    $2.00",
   "    Assets:Checking",
   ""]

/-! ## Theorems -/

/-! ### Dedup-store lemmas -/

theorem is_seen_eq_isSome (s : SeenDB) (fp : String) :
    is_seen s fp = (lookupRow s fp).isSome := by
  induction s with
  | nil => rfl
  | cons r rest ih =>
    simp only [is_seen, lookupRow, List.any_cons, List.find?_cons]
    by_cases h : r.fp == fp
    · simp [h]
    · simp only [h, Bool.false_or, cond_false]
      exact ih

theorem lookupRow_append_of_some {s : SeenDB} {fp : String} {r : SeenRow}
    (h : lookupRow s fp = some r) (t : SeenDB) :
    lookupRow (s ++ t) fp = some r := by
  induction s with
  | nil => simp [lookupRow] at h
  | cons a rest ih =>
    simp only [List.cons_append, lookupRow, List.find?_cons] at h ⊢
    cases ha : (a.fp == fp) with
    | true => rw [ha] at h; exact h
    | false => rw [ha] at h; exact ih h

theorem lookupRow_mark_seen_of_some {s : SeenDB} {fp : String} {r : SeenRow}
    (h : lookupRow s fp = some r) (fp' src now : String) :
    lookupRow (mark_seen s fp' src now) fp = some r := by
  unfold mark_seen
  split
  · exact h
  · exact lookupRow_append_of_some h _

theorem is_seen_mark_seen_of {s : SeenDB} {fp : String}
    (h : is_seen s fp = true) (fp' src now : String) :
    is_seen (mark_seen s fp' src now) fp = true := by
  unfold mark_seen
  split
  · exact h
  · unfold is_seen at h ⊢
    rw [List.any_append, h]
    rfl

theorem is_seen_mark_seen_self (s : SeenDB) (fp src now : String) :
    is_seen (mark_seen s fp src now) fp = true := by
  unfold mark_seen
  split
  next h => exact h
  next h =>
    unfold is_seen
    rw [List.any_append]
    have hx : List.any [SeenRow.mk fp src now] (fun r => r.fp == fp) = true := by simp
    rw [hx, Bool.or_true]

theorem lookupRow_mark_batch_of_some {s : SeenDB} {fp : String} {r : SeenRow}
    (h : lookupRow s fp = some r) (fps : List (String × String)) (now : String) :
    lookupRow (mark_batch s fps now).1 fp = some r := by
  induction fps generalizing s with
  | nil => simpa [mark_batch]
  | cons p rest ih =>
    simp only [mark_batch]
    by_cases hs : is_seen s p.1
    · simp only [hs, if_true]
      exact ih h
    · simp only [hs, if_false]
      exact ih (lookupRow_mark_seen_of_some h p.1 p.2 now)

theorem is_seen_of_lookupRow_some {s : SeenDB} {fp : String} {r : SeenRow}
    (h : lookupRow s fp = some r) : is_seen s fp = true := by
  rw [is_seen_eq_isSome, h]
  rfl

theorem lookupRow_of_is_seen {s : SeenDB} {fp : String}
    (h : is_seen s fp = true) : ∃ r, lookupRow s fp = some r := by
  rw [is_seen_eq_isSome] at h
  exact Option.isSome_iff_exists.mp h

/-- **C5.** Once a fingerprint is recorded in `SeenTransactions`, no store
operation (`mark_seen` with any source/time, or `mark_batch`) removes or
overwrites its row — the stored source tag and first-seen timestamp are
unchanged — a repeated `mark_seen` on a present fingerprint is a complete
no-op (and, being total, raises no error), and `is_seen` stays true forever
once `mark_seen` has run. -/
theorem seen_fingerprints_write_once :
    (∀ (s : SeenDB) (fp src now : String), is_seen s fp = true →
      seenStep (.markSeen fp src now) s = s) ∧
    (∀ (op : SeenOp) (s : SeenDB) (fp : String) (r : SeenRow),
      lookupRow s fp = some r → lookupRow (seenStep op s) fp = some r) ∧
    (∀ (op : SeenOp) (s : SeenDB) (fp : String),
      is_seen s fp = true → is_seen (seenStep op s) fp = true) ∧
    (∀ (s : SeenDB) (fp src now : String),
      is_seen (seenStep (.markSeen fp src now) s) fp = true) := by
  refine ⟨?_, ?_, ?_, ?_⟩
  · intro s fp src now h
    simp [seenStep, mark_seen, h]
  · intro op s fp r h
    cases op with
    | markSeen fp' src now => exact lookupRow_mark_seen_of_some h fp' src now
    | markBatch fps now => exact lookupRow_mark_batch_of_some h fps now
  · intro op s fp h
    obtain ⟨r, hr⟩ := lookupRow_of_is_seen h
    cases op with
    | markSeen fp' src now =>
      exact is_seen_of_lookupRow_some (lookupRow_mark_seen_of_some hr fp' src now)
    | markBatch fps now =>
      exact is_seen_of_lookupRow_some (lookupRow_mark_batch_of_some hr fps now)
  · intro s fp src now
    exact is_seen_mark_seen_self s fp src now

/-- Witness for C5 at a concrete store: a second `mark_seen` with a different
source and time leaves the original row intact. -/
theorem seen_fingerprints_write_once_witness :
    lookupRow [⟨"fp0", "chase", "t1"⟩] "fp0" = some ⟨"fp0", "chase", "t1"⟩ ∧
    lookupRow (seenStep (.markSeen "fp0" "amex" "t2") [⟨"fp0", "chase", "t1"⟩]) "fp0" =
      some ⟨"fp0", "chase", "t1"⟩ :=
  ⟨by decide,
   seen_fingerprints_write_once.2.1 (.markSeen "fp0" "amex" "t2")
     [⟨"fp0", "chase", "t1"⟩] "fp0" ⟨"fp0", "chase", "t1"⟩ (by decide)⟩

/-! ### C2 — payee normalization idempotence -/

/-- **C2.** The claim `normalize_payee (normalize_payee x) = normalize_payee x`
for every `x` fails on the code: stripping runs *before* punctuation removal,
so removing a leading punctuation character can expose a leading space that
only the second application strips.  At `", a"` the first application yields
`" a"` and the second `"a"`. -/
theorem normalize_payee_not_idempotent_at_comma_a :
    normalize_payee ", a" = " a" ∧
    normalize_payee (normalize_payee ", a") = "a" ∧
    normalize_payee (normalize_payee ", a") ≠ normalize_payee ", a" := by
  refine ⟨by decide, by decide, by decide⟩

/-! ### C6 / C7 — rule engine -/

theorem engineNormalizePayee_no_match {rules : List PayeeRule} {x : String}
    (h : ∀ r ∈ rules, ruleMatches r x = false) :
    engineNormalizePayee rules x = x := by
  induction rules with
  | nil => rfl
  | cons r rest ih =>
    simp only [engineNormalizePayee]
    rw [h r (List.mem_cons_self r rest)]
    simp only [Bool.false_eq_true, if_false]
    exact ih (fun r' hr' => h r' (List.mem_cons_of_mem r hr'))

theorem categorize_no_match {rules : List AccountRule} {x : String}
    (h : ∀ r ∈ rules, pyLower r.payee ≠ pyLower x) :
    categorize rules x = none := by
  induction rules with
  | nil => rfl
  | cons r rest ih =>
    simp only [categorize]
    have : (pyLower r.payee == pyLower x) = false := by
      simpa using h r (List.mem_cons_self r rest)
    rw [this]
    simp only [Bool.false_eq_true, if_false]
    exact ih (fun r' hr' => h r' (List.mem_cons_of_mem r hr'))

/-- **C6.** The first matching payee rule in list order determines the clean
name: for `[A, B]` with `A` matching, the result is `A`'s name; in general,
if no rule before index `i` matches and the rule at `i` does, the result is
rule `i`'s name. -/
theorem payee_rule_precedence :
    (∀ (A B : PayeeRule) (x : String), ruleMatches A x = true →
      engineNormalizePayee [A, B] x = A.name) ∧
    (∀ (rules : List PayeeRule) (x : String) (i : Nat) (h : i < rules.length),
      (∀ j (hj : j < i), ruleMatches (rules.get ⟨j, Nat.lt_trans hj h⟩) x = false) →
      ruleMatches (rules.get ⟨i, h⟩) x = true →
      engineNormalizePayee rules x = (rules.get ⟨i, h⟩).name) := by
  constructor
  · intro A B x hA
    simp [engineNormalizePayee, hA]
  · intro rules
    induction rules with
    | nil => intro x i h; exact absurd h (by simp)
    | cons r rest ih =>
      intro x i h hbefore hi
      cases i with
      | zero =>
        simp only [List.get] at hi
        simp [engineNormalizePayee, hi]
      | succ n =>
        have h0 : ruleMatches r x = false := hbefore 0 (Nat.succ_pos n)
        simp only [engineNormalizePayee, h0, Bool.false_eq_true, if_false]
        exact ih x n (Nat.lt_of_succ_lt_succ h)
          (fun j hj => hbefore (j + 1) (Nat.succ_lt_succ hj)) hi

/-- Witness for C6: two rules whose patterns both occur (case-insensitively)
in the raw payee; the first one's clean name wins. -/
theorem payee_rule_precedence_witness :
    ruleMatches ⟨"store", "CleanA"⟩ "My STORE and store" = true ∧
    engineNormalizePayee [⟨"store", "CleanA"⟩, ⟨"store", "CleanB"⟩]
      "My STORE and store" = "CleanA" :=
  ⟨by decide,
   payee_rule_precedence.1 ⟨"store", "CleanA"⟩ ⟨"store", "CleanB"⟩
     "My STORE and store" (by decide)⟩

/-- **C7.** When no payee rule matches the raw payee and no account rule
matches the resulting clean payee (which is then the raw payee itself),
`RuleEngine.apply` returns the raw payee unchanged with the sentinel account
`"Expenses:Uncategorized"`. -/
theorem apply_no_rules_uncategorized :
    ∀ (pr : List PayeeRule) (ar : List AccountRule) (x : String),
      (∀ r ∈ pr, ruleMatches r x = false) →
      (∀ r ∈ ar, pyLower r.payee ≠ pyLower x) →
      applyRules pr ar x = (x, "Expenses:Uncategorized") := by
  intro pr ar x hp ha
  unfold applyRules
  simp only [engineNormalizePayee_no_match hp, categorize_no_match ha, Option.getD_none]

/-- Witness for C7: the spec's end-to-end scenario — the empty rule set
applied to `"RANDOM STORE"`. -/
theorem apply_no_rules_uncategorized_witness :
    applyRules [] [] "RANDOM STORE" = ("RANDOM STORE", "Expenses:Uncategorized") :=
  apply_no_rules_uncategorized [] [] "RANDOM STORE"
    (by intro r hr; simp at hr) (by intro r hr; simp at hr)

/-! ### C10 — fingerprint delimiter collision -/

/-- **C10.** The fingerprint joins its five fields with the literal `"|"`
without escaping, so the distinct tuples `("a|b", "c", …)` and
`("a", "b|c", …)` produce the same pre-image string and hence the same
fingerprint. -/
theorem fingerprint_delimiter_collision :
    fingerprintInput "a|b" "c" "1.00" "payee" "sid" =
      fingerprintInput "a" "b|c" "1.00" "payee" "sid" ∧
    fingerprint "a|b" "c" "1.00" "payee" "sid" =
      fingerprint "a" "b|c" "1.00" "payee" "sid" ∧
    ("a|b", "c", "1.00", "payee", "sid") ≠ ("a", "b|c", "1.00", "payee", "sid") := by
  have h : fingerprintInput "a|b" "c" "1.00" "payee" "sid" =
      fingerprintInput "a" "b|c" "1.00" "payee" "sid" := by decide
  exact ⟨h, congrArg sha256hex h, by decide⟩

/-! ### C3 — promotion does not re-partition by month -/

/-- **C3.** (code bug) For a staging file spanning two months, the promotion
loop appends the staged file's *entire* content to every month's destination
file: `postings/2026/2026-01/chase.journal` receives the 2026-02 entry as
well (and `postings/2026/2026-02/chase.journal` the 2026-01 entry), instead
of each month receiving only its own entries as the spec requires. -/
theorem promotion_copies_whole_file_across_months :
    postedAt (promote [("chase_2026-01.journal", janFebLines)] [])
        "postings/2026/2026-01/chase.journal" = some janFebLines ∧
    postedAt (promote [("chase_2026-01.journal", janFebLines)] [])
        "postings/2026/2026-02/chase.journal" = some janFebLines ∧
    "2026-02-01 Store B  ; fingerprint:bb" ∈ janFebLines ∧
    "2026-01-31 Store A  ; fingerprint:aa" ∈ janFebLines := by
  refine ⟨by decide, by decide, by decide, by decide⟩

/-! ### C4 — dedup idempotence of `write_staging_journals` -/

theorem wsLoop_is_seen_mono {pr : List PayeeRule} {ar : List AccountRule}
    {now fp : String} :
    ∀ (txns : List CanonicalTransaction) (st : WSLoopState),
      is_seen st.seen fp = true →
      is_seen (wsLoop pr ar now txns st).seen fp = true := by
  intro txns
  induction txns with
  | nil => intro st h; exact h
  | cons t rest ih =>
    intro st h
    simp only [wsLoop]
    split
    · exact ih st h
    · exact ih _ (is_seen_mark_seen_of h _ _ _)

theorem wsLoop_all_seen {pr : List PayeeRule} {ar : List AccountRule}
    {now : String} :
    ∀ (txns : List CanonicalTransaction) (st : WSLoopState) (txn : CanonicalTransaction),
      txn ∈ txns → is_seen (wsLoop pr ar now txns st).seen (txnFp txn) = true := by
  intro txns
  induction txns with
  | nil => intro st txn h; simp at h
  | cons t rest ih =>
    intro st txn h
    rcases List.mem_cons.mp h with heq | hmem
    · subst heq
      simp only [wsLoop]
      split
      next hseen => exact wsLoop_is_seen_mono rest st hseen
      next hseen =>
        exact wsLoop_is_seen_mono rest _ (is_seen_mark_seen_self st.seen _ _ now)
    · simp only [wsLoop]
      split
      · exact ih st txn hmem
      · exact ih _ txn hmem

theorem wsLoop_all_seen_noop {pr : List PayeeRule} {ar : List AccountRule}
    {now : String} :
    ∀ (txns : List CanonicalTransaction) (st : WSLoopState),
      (∀ txn ∈ txns, is_seen st.seen (txnFp txn) = true) →
      wsLoop pr ar now txns st = st := by
  intro txns
  induction txns with
  | nil => intro st _; rfl
  | cons t rest ih =>
    intro st h
    have ht : is_seen st.seen (txnFp t) = true := h t (List.mem_cons_self t rest)
    simp only [wsLoop, ht, if_true]
    exact ih st (fun txn hm => h txn (List.mem_cons_of_mem t hm))

/-- **C4.** Running `write_staging_journals` a second time on the same batch,
against the dedup store produced by the first run, writes nothing: the
returned per-institution count map is empty and the store's count (indeed the
whole store) is unchanged. -/
theorem dedup_second_run_noop :
    ∀ (txns : List CanonicalTransaction) (pr : List PayeeRule)
      (ar : List AccountRule) (s0 : SeenDB) (now1 now2 : String),
      (write_staging_journals txns pr ar
          (write_staging_journals txns pr ar s0 now1).seen now2).stats = [] ∧
      (write_staging_journals txns pr ar
          (write_staging_journals txns pr ar s0 now1).seen now2).seen =
        (write_staging_journals txns pr ar s0 now1).seen ∧
      seenCount (write_staging_journals txns pr ar
          (write_staging_journals txns pr ar s0 now1).seen now2).seen =
        seenCount (write_staging_journals txns pr ar s0 now1).seen := by
  intro txns pr ar s0 now1 now2
  have h1 : ∀ txn ∈ txns,
      is_seen (write_staging_journals txns pr ar s0 now1).seen (txnFp txn) = true := by
    intro txn h
    exact wsLoop_all_seen txns ⟨s0, [], [], []⟩ txn h
  have h2 : wsLoop pr ar now2 txns
      ⟨(write_staging_journals txns pr ar s0 now1).seen, [], [], []⟩ =
      ⟨(write_staging_journals txns pr ar s0 now1).seen, [], [], []⟩ :=
    wsLoop_all_seen_noop txns _ (fun txn h => h1 txn h)
  refine ⟨?_, ?_, ?_⟩
  · show (wsLoop pr ar now2 txns
      ⟨(write_staging_journals txns pr ar s0 now1).seen, [], [], []⟩).stats = []
    rw [h2]
  · show (wsLoop pr ar now2 txns
      ⟨(write_staging_journals txns pr ar s0 now1).seen, [], [], []⟩).seen = _
    rw [h2]
  · show seenCount (wsLoop pr ar now2 txns
      ⟨(write_staging_journals txns pr ar s0 now1).seen, [], [], []⟩).seen = _
    rw [h2]

/-! ### C1 — ordering of staging-file appends vs. dedup marks -/

/-- **C1 counterexample.** The claim "each entry is appended before its
fingerprint is marked seen" is false on the code: the loop marks fingerprints
while entries are only buffered in `grouped`, and all staging-file appends
happen after the loop.  On a single fresh transaction the trace begins with
the `mark` event, with no preceding `append`. -/
theorem c1_mark_before_append_counterexample :
    ¬ appendsBeforeMarks (write_staging_journals [txn0] [] [] [] "t0").trace := by
  intro h
  obtain ⟨j, k, hj, _⟩ := h 0 (txnFp txn0) rfl
  exact absurd hj (Nat.not_lt_zero j)

theorem groupedFp_appendGroup {g : List (String × List (String × String))}
    {k : String} {x : String × String} {fp : String} :
    groupedFp (appendGroup g k x) fp → groupedFp g fp ∨ fp = x.1 := by
  induction g with
  | nil =>
    intro h
    obtain ⟨kv, hkv, fe, hfe, hfp⟩ := h
    simp only [appendGroup, List.mem_singleton] at hkv
    subst hkv
    simp only [List.mem_singleton] at hfe
    subst hfe
    exact Or.inr hfp.symm
  | cons p rest ih =>
    intro h
    obtain ⟨kv, hkv, fe, hfe, hfp⟩ := h
    simp only [appendGroup] at hkv
    by_cases hk : p.1 == k
    · rw [if_pos hk] at hkv
      rcases List.mem_cons.mp hkv with heq | hmem
      · subst heq
        rcases List.mem_append.mp hfe with hin | hone
        · exact Or.inl ⟨p, List.mem_cons_self p rest, fe, hin, hfp⟩
        · simp only [List.mem_singleton] at hone
          subst hone
          exact Or.inr hfp.symm
      · exact Or.inl ⟨kv, List.mem_cons_of_mem p hmem, fe, hfe, hfp⟩
    · rw [if_neg hk] at hkv
      rcases List.mem_cons.mp hkv with heq | hmem
      · subst heq
        exact Or.inl ⟨p, List.mem_cons_self p rest, fe, hfe, hfp⟩
      · rcases ih ⟨kv, hmem, fe, hfe, hfp⟩ with hl | hr
        · obtain ⟨kv', hkv', fe', hfe', hfp'⟩ := hl
          exact Or.inl ⟨kv', List.mem_cons_of_mem p hkv', fe', hfe', hfp'⟩
        · exact Or.inr hr

theorem wsLoop_trace_invariant {pr : List PayeeRule} {ar : List AccountRule}
    {now : String} :
    ∀ (txns : List CanonicalTransaction) (st : WSLoopState),
      (∀ e ∈ st.trace, ∃ fp, e = WEv.mark fp) →
      (∀ fp, groupedFp st.grouped fp → WEv.mark fp ∈ st.trace) →
      (∀ e ∈ (wsLoop pr ar now txns st).trace, ∃ fp, e = WEv.mark fp) ∧
      (∀ fp, groupedFp (wsLoop pr ar now txns st).grouped fp →
        WEv.mark fp ∈ (wsLoop pr ar now txns st).trace) := by
  intro txns
  induction txns with
  | nil => intro st h1 h2; exact ⟨h1, h2⟩
  | cons t rest ih =>
    intro st h1 h2
    simp only [wsLoop]
    split
    · exact ih st h1 h2
    · apply ih
      · intro e he
        rcases List.mem_append.mp he with hold | hnew
        · exact h1 e hold
        · simp only [List.mem_singleton] at hnew
          exact ⟨txnFp t, hnew⟩
      · intro fp hfp
        rcases groupedFp_appendGroup hfp with hold | hnew
        · exact List.mem_append.mpr (Or.inl (h2 fp hold))
        · subst hnew
          exact List.mem_append.mpr (Or.inr (List.mem_singleton.mpr rfl))

theorem mem_appendEvents {g : List (String × List (String × String))} {e : WEv} :
    e ∈ appendEvents g → ∃ k fp, e = WEv.append k fp ∧ groupedFp g fp := by
  intro h
  unfold appendEvents at h
  rw [List.mem_flatten] at h
  obtain ⟨l, hl, hel⟩ := h
  rw [List.mem_map] at hl
  obtain ⟨kv, hkv, rfl⟩ := hl
  rw [List.mem_map] at hel
  obtain ⟨fe, hfe, rfl⟩ := hel
  exact ⟨kv.1, fe.1, rfl, kv, hkv, fe, hfe, rfl⟩

/-- **C1 (amended).** In `write_staging_journals` the order is the reverse of
the claim: the trace is the loop's `mark` events followed by the write-out
phase's `append` events — every fingerprint is marked seen in the dedup store
*before* its rendered entry is appended to a staging file, and every appended
entry's fingerprint was marked during the loop. -/
theorem marks_precede_appends :
    ∀ (txns : List CanonicalTransaction) (pr : List PayeeRule)
      (ar : List AccountRule) (s0 : SeenDB) (now : String),
      ∃ ms aps,
        (write_staging_journals txns pr ar s0 now).trace = ms ++ aps ∧
        (∀ e ∈ ms, ∃ fp, e = WEv.mark fp) ∧
        (∀ e ∈ aps, ∃ k fp, e = WEv.append k fp) ∧
        (∀ k fp, WEv.append k fp ∈ aps → WEv.mark fp ∈ ms) := by
  intro txns pr ar s0 now
  have hinv := @wsLoop_trace_invariant pr ar now txns
    ⟨s0, [], [], []⟩ (by intro e he; simp at he)
    (by intro fp hfp; obtain ⟨kv, hkv, _⟩ := hfp; simp at hkv)
  refine ⟨(wsLoop pr ar now txns ⟨s0, [], [], []⟩).trace,
    appendEvents (wsLoop pr ar now txns ⟨s0, [], [], []⟩).grouped, rfl,
    hinv.1, ?_, ?_⟩
  · intro e he
    obtain ⟨k, fp, he', _⟩ := mem_appendEvents he
    exact ⟨k, fp, he'⟩
  · intro k fp hmem
    obtain ⟨k', fp', he, hg⟩ := mem_appendEvents hmem
    have hfp : fp' = fp := by
      injection he with h1 h2
      exact h2.symm
    rw [hfp] at hg
    exact hinv.2 fp hg

/-- Witness for the amended C1 at a concrete input: on one fresh transaction
the trace splits into one `mark` followed by one `append` of the same
fingerprint. -/
theorem marks_precede_appends_witness :
    ∃ ms aps,
      (write_staging_journals [txn0] [] [] [] "t0").trace = ms ++ aps ∧
      (∀ e ∈ ms, ∃ fp, e = WEv.mark fp) ∧
      (∀ e ∈ aps, ∃ k fp, e = WEv.append k fp) ∧
      (∀ k fp, WEv.append k fp ∈ aps → WEv.mark fp ∈ ms) :=
  marks_precede_appends [txn0] [] [] [] "t0"

/-! ### C8 — malformed CSV rows are skipped, not raised -/

theorem normalize_csv_rows_eq_filterMap (p : CSVProfile) :
    ∀ rows : List Row, normalize_csv_rows p rows = rows.filterMap (canonRow p) := by
  intro rows
  induction rows with
  | nil => rfl
  | cons row rest ih =>
    simp only [normalize_csv_rows, List.filterMap_cons]
    cases h : canonRow p row with
    | none => simpa [h] using ih
    | some txn => simpa [h] using ih

theorem canonRow_none_iff (p : CSVProfile) (row : Row) :
    canonRow p row = none ↔
      (pyStrip (pyGet row (pyGet p.columns "date" "") "") = "" ∨
       pyStrptime p.date_format (pyStrip (pyGet row (pyGet p.columns "date" "") "")) = none ∨
       pyFloat (stripCommas (pyStrip (pyGet row (pyGet p.columns "amount" "") "0"))) = none) := by
  simp only [canonRow]
  split_ifs with hd hinv
  · simp [hd]
  · cases hs : pyStrptime p.date_format (pyStrip (pyGet row (pyGet p.columns "date" "") "")) with
    | none => simp [hd, hs]
    | some d =>
      cases hf : pyFloat (stripCommas (pyStrip (pyGet row (pyGet p.columns "amount" "") "0"))) with
      | none => simp [hd, hs, hf]
      | some a => simp [hd, hs, hf]
  · cases hs : pyStrptime p.date_format (pyStrip (pyGet row (pyGet p.columns "date" "") "")) with
    | none => simp [hd, hs]
    | some d =>
      cases hf : pyFloat (stripCommas (pyStrip (pyGet row (pyGet p.columns "amount" "") "0"))) with
      | none => simp [hd, hs, hf]
      | some a => simp [hd, hs, hf]

/-- **C8.** The row loop of `normalize_csv` never raises (the model is a total
function): a row is excluded exactly when its date field is empty, its date
fails to parse under the profile's date format, or its amount fails to parse
after stripping thousands separators; the returned list contains exactly the
canonical transactions of the well-formed rows, in input order
(`filterMap` over the per-row body). -/
theorem normalize_csv_skips_malformed_rows :
    ∀ (p : CSVProfile) (rows : List Row),
      normalize_csv_rows p rows = rows.filterMap (canonRow p) ∧
      ∀ row : Row,
        (canonRow p row = none ↔
          (pyStrip (pyGet row (pyGet p.columns "date" "") "") = "" ∨
           pyStrptime p.date_format (pyStrip (pyGet row (pyGet p.columns "date" "") "")) = none ∨
           pyFloat (stripCommas (pyStrip (pyGet row (pyGet p.columns "amount" "") "0"))) = none)) :=
  fun p rows => ⟨normalize_csv_rows_eq_filterMap p rows, fun row => canonRow_none_iff p row⟩

/-! ### C9 — JSON round trip -/

theorem hexVal_hexDigitChar : ∀ k, k < 16 → hexVal (hexDigitChar k) = some k := by decide

theorem escLookahead_ctrl (c : Char) (r : List Char) (h : c.toNat < 32) :
    escLookahead ('u' :: '0' :: '0' :: hexDigitChar (c.toNat / 16) ::
      hexDigitChar (c.toNat % 16) :: r) = some (c, r) := by
  have e1 : hexVal (hexDigitChar (c.toNat / 16)) = some (c.toNat / 16) :=
    hexVal_hexDigitChar _ (by omega)
  have e2 : hexVal (hexDigitChar (c.toNat % 16)) = some (c.toNat % 16) :=
    hexVal_hexDigitChar _ (by omega)
  have hn : ((0 * 16 + 0) * 16 + c.toNat / 16) * 16 + c.toNat % 16 = c.toNat := by omega
  simp only [escLookahead, hex4, e1, e2, show hexVal '0' = some 0 from rfl, hn, reduceIte]
  rw [if_neg (by omega), if_neg (by omega), Char.ofNat_toNat]

theorem decodeF_esc (f : Nat) (tail r2 : List Char) (ch : Char)
    (he : escLookahead tail = some (ch, r2)) :
    decodeStrBodyF (f + 1) ('\\' :: tail) =
      (match decodeStrBodyF f r2 with
       | some (cs, rem) => some (ch :: cs, rem)
       | none => none) := by
  rw [show decodeStrBodyF (f + 1) ('\\' :: tail) =
    (match escLookahead tail with
     | some (ch', r2') =>
       (match decodeStrBodyF f r2' with
        | some (cs, rem) => some (ch' :: cs, rem)
        | none => none)
     | none => none) from rfl, he]

theorem decode_escStr (s : List Char) : ∀ (fuel : Nat) (rest : List Char),
    s.length + 1 ≤ fuel →
    decodeStrBodyF fuel (escStr s ++ '"' :: rest) = some (s, rest) := by
  induction s with
  | nil =>
    intro fuel rest h
    obtain ⟨f, rfl⟩ : ∃ f, fuel = f + 1 := ⟨fuel - 1, by omega⟩
    rfl
  | cons c cs ih =>
    intro fuel rest h
    obtain ⟨f, rfl⟩ : ∃ f, fuel = f + 1 := ⟨fuel - 1, by omega⟩
    have hf : cs.length + 1 ≤ f := by
      simp only [List.length_cons] at h
      omega
    simp only [escStr, List.append_assoc]
    unfold escChar
    split_ifs with h1 h2 h3 h4 h5 h6 h7 h8
    · subst h1
      rw [show ['\\', '"'] ++ (escStr cs ++ '"' :: rest) =
        '\\' :: '"' :: (escStr cs ++ '"' :: rest) from rfl]
      rw [decodeF_esc f ('"' :: (escStr cs ++ '"' :: rest))
        (escStr cs ++ '"' :: rest) '"' rfl, ih f rest hf]
    · subst h2
      rw [show ['\\', '\\'] ++ (escStr cs ++ '"' :: rest) =
        '\\' :: '\\' :: (escStr cs ++ '"' :: rest) from rfl]
      rw [decodeF_esc f ('\\' :: (escStr cs ++ '"' :: rest))
        (escStr cs ++ '"' :: rest) '\\' rfl, ih f rest hf]
    · subst h3
      rw [show ['\\', 'n'] ++ (escStr cs ++ '"' :: rest) =
        '\\' :: 'n' :: (escStr cs ++ '"' :: rest) from rfl]
      rw [decodeF_esc f ('n' :: (escStr cs ++ '"' :: rest))
        (escStr cs ++ '"' :: rest) '\n' rfl, ih f rest hf]
    · subst h4
      rw [show ['\\', 'r'] ++ (escStr cs ++ '"' :: rest) =
        '\\' :: 'r' :: (escStr cs ++ '"' :: rest) from rfl]
      rw [decodeF_esc f ('r' :: (escStr cs ++ '"' :: rest))
        (escStr cs ++ '"' :: rest) '\r' rfl, ih f rest hf]
    · subst h5
      rw [show ['\\', 't'] ++ (escStr cs ++ '"' :: rest) =
        '\\' :: 't' :: (escStr cs ++ '"' :: rest) from rfl]
      rw [decodeF_esc f ('t' :: (escStr cs ++ '"' :: rest))
        (escStr cs ++ '"' :: rest) '\t' rfl, ih f rest hf]
    · subst h6
      rw [show ['\\', 'b'] ++ (escStr cs ++ '"' :: rest) =
        '\\' :: 'b' :: (escStr cs ++ '"' :: rest) from rfl]
      rw [decodeF_esc f ('b' :: (escStr cs ++ '"' :: rest))
        (escStr cs ++ '"' :: rest) '\x08' rfl, ih f rest hf]
    · subst h7
      rw [show ['\\', 'f'] ++ (escStr cs ++ '"' :: rest) =
        '\\' :: 'f' :: (escStr cs ++ '"' :: rest) from rfl]
      rw [decodeF_esc f ('f' :: (escStr cs ++ '"' :: rest))
        (escStr cs ++ '"' :: rest) '\x0c' rfl, ih f rest hf]
    · rw [show ['\\', 'u', '0', '0', hexDigitChar (c.toNat / 16),
          hexDigitChar (c.toNat % 16)] ++ (escStr cs ++ '"' :: rest) =
        '\\' :: 'u' :: '0' :: '0' :: hexDigitChar (c.toNat / 16) ::
          hexDigitChar (c.toNat % 16) :: (escStr cs ++ '"' :: rest) from rfl]
      rw [decodeF_esc f _ _ _ (escLookahead_ctrl c _ h8), ih f rest hf]
    · rw [show [c] ++ (escStr cs ++ '"' :: rest) = c :: (escStr cs ++ '"' :: rest) from rfl]
      simp only [decodeStrBodyF]
      rw [if_neg h1, if_neg h2, if_neg h8, ih f rest hf]

theorem skipWs_not_ws (c : Char) (l : List Char) (h : isJsonWs c = false) :
    skipWs (c :: l) = c :: l := by
  simp [skipWs, List.dropWhile_cons, h]

theorem skipWs_space (l : List Char) : skipWs (' ' :: l) = skipWs l := rfl

theorem parseJsonStrF_jstr (s : String) (sf : Nat) (h : s.data.length + 1 ≤ sf) :
    ∀ tail, parseJsonStrF sf (jstr s ++ tail) = some (s, tail) := by
  intro tail
  rw [show jstr s ++ tail = '"' :: (escStr s.data ++ '"' :: tail) by
    simp [jstr, List.append_assoc]]
  simp only [parseJsonStrF]
  rw [skipWs_not_ws '"' _ rfl]
  simp only [decode_escStr s.data sf tail h]

theorem parseJsonStrF_space (sf : Nat) (l : List Char) :
    parseJsonStrF sf (' ' :: l) = parseJsonStrF sf l := by
  simp only [parseJsonStrF, skipWs_space]

theorem parseMembers_space (sf mf : Nat) (l : List Char) (acc : List (String × String)) :
    parseMembers sf mf (' ' :: l) acc = parseMembers sf mf l acc := by
  cases mf with
  | zero => rfl
  | succ m => simp only [parseMembers, parseJsonStrF_space]

theorem parseMembers_step (sf mf : Nat) (k v : String) (r : List Char)
    (acc : List (String × String))
    (hk : k.data.length + 1 ≤ sf) (hv : v.data.length + 1 ≤ sf) :
    parseMembers sf (mf + 1) (jsonMember k v ++ ',' :: ' ' :: r) acc =
      parseMembers sf mf (' ' :: r) (acc ++ [(k, v)]) := by
  rw [show jsonMember k v ++ ',' :: ' ' :: r =
      jstr k ++ (':' :: ' ' :: (jstr v ++ ',' :: ' ' :: r)) by
    simp [jsonMember, List.append_assoc]]
  simp only [parseMembers]
  rw [parseJsonStrF_jstr k sf hk]
  simp only []
  rw [skipWs_not_ws ':' _ rfl]
  simp only [parseJsonStrF_space]
  rw [parseJsonStrF_jstr v sf hv]
  simp only []
  rw [skipWs_not_ws ',' _ rfl]
  rfl

theorem parseMembers_last (sf mf : Nat) (k v : String) (r : List Char)
    (acc : List (String × String))
    (hk : k.data.length + 1 ≤ sf) (hv : v.data.length + 1 ≤ sf) :
    parseMembers sf (mf + 1) (jsonMember k v ++ '\x7d' :: r) acc =
      some (acc ++ [(k, v)], r) := by
  rw [show jsonMember k v ++ '\x7d' :: r =
      jstr k ++ (':' :: ' ' :: (jstr v ++ '\x7d' :: r)) by
    simp [jsonMember, List.append_assoc]]
  simp only [parseMembers]
  rw [parseJsonStrF_jstr k sf hk]
  simp only []
  rw [skipWs_not_ws ':' _ rfl]
  simp only [parseJsonStrF_space]
  rw [parseJsonStrF_jstr v sf hv]
  simp only []
  rw [skipWs_not_ws '\x7d' _ rfl]
  rfl

theorem mk_data (l : List Char) : (String.mk l).data = l := rfl

theorem escStr_length (s : List Char) : s.length ≤ (escStr s).length := by
  induction s with
  | nil => simp [escStr]
  | cons c cs ih =>
    have h1 : 1 ≤ (escChar c).length := by
      unfold escChar
      split_ifs <;> simp
    simp only [escStr, List.length_cons, List.length_append]
    omega


theorem parseMembers_step' (sf mf : Nat) (k v : String) (r : List Char)
    (acc : List (String × String))
    (hk : k.data.length + 1 ≤ sf) (hv : v.data.length + 1 ≤ sf) (hmf : 1 ≤ mf) :
    parseMembers sf mf (jsonMember k v ++ ',' :: ' ' :: r) acc =
      parseMembers sf (mf - 1) (' ' :: r) (acc ++ [(k, v)]) := by
  obtain ⟨m, rfl⟩ : ∃ m, mf = m + 1 := ⟨mf - 1, by omega⟩
  simpa using parseMembers_step sf m k v r acc hk hv

theorem parseMembers_last' (sf mf : Nat) (k v : String) (r : List Char)
    (acc : List (String × String))
    (hk : k.data.length + 1 ≤ sf) (hv : v.data.length + 1 ≤ sf) (hmf : 1 ≤ mf) :
    parseMembers sf mf (jsonMember k v ++ '\x7d' :: r) acc =
      some (acc ++ [(k, v)], r) := by
  obtain ⟨m, rfl⟩ : ∃ m, mf = m + 1 := ⟨mf - 1, by omega⟩
  exact parseMembers_last sf m k v r acc hk hv

/-- **C9.** For every `CanonicalTransaction` (all seven fields are strings),
parsing its serialized one-line JSON form yields an equal record:
`CanonicalTransaction.from_json(t.to_json()) == t`. -/
theorem from_json_to_json (t : CanonicalTransaction) :
    from_json (to_json t) = some t := by
  have e1 := escStr_length t.date.data
  have e2 := escStr_length t.amount.data
  have e3 := escStr_length t.payee.data
  have e4 := escStr_length t.memo.data
  have e5 := escStr_length t.account.data
  have e6 := escStr_length t.source_id.data
  have e7 := escStr_length t.institution.data
  have hB : (t.date.data.length + 1 ≤ (to_json t).data.length + 1) ∧
      (t.amount.data.length + 1 ≤ (to_json t).data.length + 1) ∧
      (t.payee.data.length + 1 ≤ (to_json t).data.length + 1) ∧
      (t.memo.data.length + 1 ≤ (to_json t).data.length + 1) ∧
      (t.account.data.length + 1 ≤ (to_json t).data.length + 1) ∧
      (t.source_id.data.length + 1 ≤ (to_json t).data.length + 1) ∧
      (t.institution.data.length + 1 ≤ (to_json t).data.length + 1) ∧
      (12 ≤ (to_json t).data.length + 1) := by
    have k1 : (escStr ("date" : String).data).length = 4 := rfl
    have k2 : (escStr ("amount" : String).data).length = 6 := rfl
    have k3 : (escStr ("payee" : String).data).length = 5 := rfl
    have k4 : (escStr ("memo" : String).data).length = 4 := rfl
    have k5 : (escStr ("account" : String).data).length = 7 := rfl
    have k6 : (escStr ("source_id" : String).data).length = 9 := rfl
    have k7 : (escStr ("institution" : String).data).length = 11 := rfl
    simp only [to_json, toJsonBody, mk_data, jsonMember, jstr, List.length_append,
      List.length_cons, k1, k2, k3, k4, k5, k6, k7]
    omega
  obtain ⟨hd, ha, hp, hm_, hac, hsi, hin, hkeys⟩ := hB
  obtain ⟨m, hm7⟩ : ∃ m, (to_json t).data.length + 1 = m + 7 :=
    ⟨(to_json t).data.length + 1 - 7, by omega⟩
  rw [hm7] at hd ha hp hm_ hac hsi hin hkeys
  unfold from_json
  rw [hm7]
  rw [show (to_json t).data = '\x7b' :: toJsonBody t from rfl]
  rw [skipWs_not_ws '\x7b' _ rfl]
  show (match parseMembers (m + 7) (m + 7) (toJsonBody t) [] with
    | some (mems, rest) => if (skipWs rest).isEmpty then mkCanonical mems else none
    | none => none) = some t
  simp only [toJsonBody]
  rw [parseMembers_step' (m + 7) (m + 7) "date" t.date _ []
    (by have : ("date" : String).data.length = 4 := rfl; omega) hd (by omega)]
  rw [parseMembers_space]
  rw [parseMembers_step' (m + 7) (m + 7 - 1) "amount" t.amount _ _
    (by have : ("amount" : String).data.length = 6 := rfl; omega) ha (by omega)]
  rw [parseMembers_space]
  rw [parseMembers_step' (m + 7) (m + 7 - 1 - 1) "payee" t.payee _ _
    (by have : ("payee" : String).data.length = 5 := rfl; omega) hp (by omega)]
  rw [parseMembers_space]
  rw [parseMembers_step' (m + 7) (m + 7 - 1 - 1 - 1) "memo" t.memo _ _
    (by have : ("memo" : String).data.length = 4 := rfl; omega) hm_ (by omega)]
  rw [parseMembers_space]
  rw [parseMembers_step' (m + 7) (m + 7 - 1 - 1 - 1 - 1) "account" t.account _ _
    (by have : ("account" : String).data.length = 7 := rfl; omega) hac (by omega)]
  rw [parseMembers_space]
  rw [parseMembers_step' (m + 7) (m + 7 - 1 - 1 - 1 - 1 - 1) "source_id" t.source_id _ _
    (by have : ("source_id" : String).data.length = 9 := rfl; omega) hsi (by omega)]
  rw [parseMembers_space]
  rw [parseMembers_last' (m + 7) (m + 7 - 1 - 1 - 1 - 1 - 1 - 1) "institution"
    t.institution _ _
    (by have : ("institution" : String).data.length = 11 := rfl; omega) hin (by omega)]
  rfl

end FinLLM
